import Mathlib

/-!
# njbrender — a verification development

`njbrender.go` reads Markdown from standard input, converts it to HTML with
the gomarkdown library and highlights code blocks with chroma through a
render hook.  The program's own functions (`setupSyntax`, `writeCode`,
`renderHookCodeInfo`, `main`) are embedded below as pure functions over an
explicit state; the two libraries are parameters.
-/

namespace Njb

/-! ## Library flag constants

The Go libraries declare their option flags as distinct single bits
(`1 << iota`).  The flag names are enumerated here; which bit a name occupies
is a parameter `bit` of everything below, and `libBit` records the positions
declared by the libraries. -/

/-- Names of the `parser.Extensions` single-bit constants of gomarkdown. -/
inductive ParserExt where
  | NoIntraEmphasis | Tables | FencedCode | Autolink | Strikethrough
  | LaxHTMLBlocks | SpaceHeadings | HardLineBreak | NonBlockingSpace
  | TabSizeEight | Footnotes | NoEmptyLineBeforeBlock | HeadingIDs
  | Titleblock | AutoHeadingIDs | BackslashLineBreak | DefinitionLists
  | MathJax | OrderedListStart | Attributes | SuperSubscript
  | EmptyLinesBreakList | Includes | Mmark
  deriving DecidableEq, Repr

/-- Names of the `html.Flags` single-bit constants of gomarkdown. -/
inductive HtmlFlag where
  | SkipHTML | SkipImages | SkipLinks | Safelink | NofollowLinks
  | NoreferrerLinks | NoopenerLinks | HrefTargetBlank | CompletePage
  | UseXHTML | FootnoteReturnLinks | FootnoteNoHRTag | Smartypants
  | SmartypantsFractions | SmartypantsDashes | SmartypantsLatexDashes
  | SmartypantsAngledQuotes | SmartypantsQuotesNBSP | TOC
  deriving DecidableEq, Repr

/-- Bit positions of the parser extensions as the library declares them
(`NoIntraEmphasis = 1 << 1`, then one position per line). -/
def ParserExt.libBit : ParserExt → Nat
  | .NoIntraEmphasis => 1 | .Tables => 2 | .FencedCode => 3 | .Autolink => 4
  | .Strikethrough => 5 | .LaxHTMLBlocks => 6 | .SpaceHeadings => 7
  | .HardLineBreak => 8 | .NonBlockingSpace => 9 | .TabSizeEight => 10
  | .Footnotes => 11 | .NoEmptyLineBeforeBlock => 12 | .HeadingIDs => 13
  | .Titleblock => 14 | .AutoHeadingIDs => 15 | .BackslashLineBreak => 16
  | .DefinitionLists => 17 | .MathJax => 18 | .OrderedListStart => 19
  | .Attributes => 20 | .SuperSubscript => 21 | .EmptyLinesBreakList => 22
  | .Includes => 23 | .Mmark => 24

/-- Bit positions of the renderer flags as the library declares them
(`SkipHTML = 1 << 1`, then one position per line). -/
def HtmlFlag.libBit : HtmlFlag → Nat
  | .SkipHTML => 1 | .SkipImages => 2 | .SkipLinks => 3 | .Safelink => 4
  | .NofollowLinks => 5 | .NoreferrerLinks => 6 | .NoopenerLinks => 7
  | .HrefTargetBlank => 8 | .CompletePage => 9 | .UseXHTML => 10
  | .FootnoteReturnLinks => 11 | .FootnoteNoHRTag => 12 | .Smartypants => 13
  | .SmartypantsFractions => 14 | .SmartypantsDashes => 15
  | .SmartypantsLatexDashes => 16 | .SmartypantsAngledQuotes => 17
  | .SmartypantsQuotesNBSP => 18 | .TOC => 19

/-- The value of a single-bit flag constant sitting at position `bit x`. -/
def flagValue {α : Type} (bit : α → Nat) (x : α) : Nat := 2 ^ bit x

/-- Membership test `flags & x != 0` used by the libraries. -/
def hasFlag {α : Type} (bit : α → Nat) (flags : Nat) (x : α) : Bool :=
  flags &&& flagValue bit x != 0

/-- The local `extensions` of `main` (njbrender.go, lines 73-77). -/
def extensions (bit : ParserExt → Nat) : Nat :=
  flagValue bit .Tables ||| flagValue bit .FencedCode |||
  flagValue bit .Strikethrough ||| flagValue bit .SpaceHeadings |||
  flagValue bit .HeadingIDs ||| flagValue bit .BackslashLineBreak |||
  flagValue bit .DefinitionLists ||| flagValue bit .OrderedListStart |||
  flagValue bit .SuperSubscript ||| flagValue bit .MathJax

/-- The local `htmlFlags` of `main` (njbrender.go, lines 78-79). -/
def htmlFlags (bit : HtmlFlag → Nat) : Nat :=
  flagValue bit .FootnoteReturnLinks ||| flagValue bit .Smartypants |||
  flagValue bit .SmartypantsFractions ||| flagValue bit .SmartypantsLatexDashes

/-- The ten parser extensions the specification lists. -/
def listedExtensions : List ParserExt :=
  [.Tables, .FencedCode, .Strikethrough, .SpaceHeadings, .HeadingIDs,
   .BackslashLineBreak, .DefinitionLists, .OrderedListStart, .SuperSubscript,
   .MathJax]

/-- The renderer flags that `main` combines into `htmlFlags`. -/
def enabledHtmlFlags : List HtmlFlag :=
  [.FootnoteReturnLinks, .Smartypants, .SmartypantsFractions,
   .SmartypantsLatexDashes]

/-- The renderer flags the specification's rendering sentence is read as
requiring. -/
def specHtmlFlags : List HtmlFlag :=
  [.FootnoteReturnLinks, .Smartypants, .SmartypantsDashes,
   .SmartypantsFractions, .SmartypantsLatexDashes]

/-! ## The chroma library (parameters) -/

/-- The operations of the chroma highlighting library that `njbrender.go`
calls.  Go `error` values are represented by their message. -/
structure Chroma where
  /-- The type `chroma.Lexer`. -/
  Lexer : Type
  /-- The type of the formatters that a non-nil `*chtml.Formatter` points
  to.  A pointer is an `Option Formatter`, with `none` the nil pointer. -/
  Formatter : Type
  /-- The type `chroma.Iterator` of token sequences. -/
  Tokens : Type
  /-- The type of chroma styles. -/
  Style : Type
  /-- The pointer `chtml.New(chtml.WithClasses(true), chtml.TabWidth(4))`
  returns; `none` is the nil pointer. -/
  newFormatter : Option Formatter
  /-- The registry lookup `lexers.Get`; `none` stands for `nil`. -/
  lexersGet : String → Option Lexer
  /-- The lexer `lexers.Fallback`. -/
  lexersFallback : Lexer
  /-- The wrapper `chroma.Coalesce`. -/
  coalesce : Lexer → Lexer
  /-- The method `lxr.Tokenise(nil, text)`. -/
  tokenise : Lexer → String → Except String Tokens
  /-- The style `styles.Fallback`. -/
  stylesFallback : Style
  /-- The method `p.Format(w, style, tokens)` on the pointer `p`: the bytes
  it writes to `w` and the error it returns. -/
  format : Option Formatter → Style → Tokens → String × Option String

/-- Calls into the chroma library, recorded in the order they happen. -/
inductive LibCall where
  | newFormatter
  | lexersGet (name : String)
  | coalesce
  | tokenise (text : String)
  | format
  deriving DecidableEq, Repr

/-! ## Program state -/

/-- The package-level variables `fmtr` and `isSetup`, the bytes sent to
`os.Stderr` so far, and the log of chroma calls made so far.  The variable
`fmtr` has the interface type `chroma.Formatter`: `none` is the nil interface
and `some p` is an interface value holding the pointer `p`, which may itself
be the nil pointer. -/
structure State (c : Chroma) where
  fmtr : Option (Option c.Formatter)
  isSetup : Bool
  stderr : String
  calls : List LibCall

/-- The state when `main` starts: `fmtr` is nil and `isSetup` is false. -/
def State.init (c : Chroma) : State c :=
  { fmtr := none, isSetup := false, stderr := "", calls := [] }

/-- Number of formatter constructions recorded in a call log. -/
def constructions (l : List LibCall) : Nat := l.count .newFormatter

/-- The function `setupSyntax` (njbrender.go, lines 24-32): the new state
and the returned error.  Line 25 stores the pointer that `chtml.New` returns
in the interface variable `fmtr`; line 26 compares that interface value with
nil. -/
def setupSyntax (c : Chroma) (s : State c) : State c × Option String :=
  let s1 : State c :=
    { s with fmtr := some c.newFormatter, calls := s.calls ++ [.newFormatter] }
  match s1.fmtr with
  | none => (s1, some "Unable to setup output formatter.")
  | some _ => ({ s1 with isSetup := true }, none)

/-- Lines 39-45 of `writeCode`: lexer lookup, tokenisation and formatting.
The result is `none` when the method call `fmtr.Format` is made on a nil
interface `fmtr` (a run-time panic); otherwise the new state, the bytes
written to `w` and the returned error. -/
def highlight (c : Chroma) (s : State c) (text codeType : String) :
    Option (State c × String × Option String) :=
  let lxr := match c.lexersGet codeType with
    | none => c.lexersFallback
    | some l => l
  let lxr := c.coalesce lxr
  let s1 : State c :=
    { s with calls := s.calls ++ [.lexersGet codeType, .coalesce, .tokenise text] }
  match c.tokenise lxr text with
  | .error e => some (s1, "", some e)
  | .ok stuff =>
    match s1.fmtr with
    | none => none
    | some p =>
      let r := c.format p c.stylesFallback stuff
      some ({ s1 with calls := s1.calls ++ [.format] }, r.1, r.2)

/-- The function `writeCode` (njbrender.go, lines 34-46).  The result is
`none` on a run-time panic; otherwise the new state, the bytes written to `w`
and the returned error. -/
def writeCode (c : Chroma) (s : State c) (text codeType : String) :
    Option (State c × String × Option String) :=
  if !s.isSetup then
    match setupSyntax c s with
    | (s1, some e) => some (s1, "", some e)
    | (s1, none) => highlight c s1 text codeType
  else highlight c s text codeType

/-! ## Document tree -/

/-- The constants of `ast.WalkStatus`. -/
inductive WalkStatus where
  | GoToNext | SkipChildren | Terminate
  deriving DecidableEq, Repr

/-- Document-tree nodes (`ast.Node`): a `*ast.CodeBlock` with its `Literal`
and `Info`, any other leaf, or any container with its children.  The payload
`α` stands for the type and fields of the other nodes. -/
inductive Node (α : Type) where
  | CodeBlock (literal info : String) : Node α
  | leaf (payload : α) : Node α
  | container (payload : α) (children : List (Node α)) : Node α

/-- Whether a node is an `*ast.CodeBlock` (the type assertion of line 51). -/
def Node.isCodeBlock {α : Type} : Node α → Bool
  | .CodeBlock _ _ => true
  | _ => false

mutual
/-- Whether no node of the tree is a code block. -/
def Node.noCodeBlock {α : Type} : Node α → Bool
  | .CodeBlock _ _ => false
  | .leaf _ => true
  | .container _ cs => Node.noCodeBlockList cs
/-- Whether no node of a list of trees is a code block. -/
def Node.noCodeBlockList {α : Type} : List (Node α) → Bool
  | [] => true
  | n :: ns => Node.noCodeBlock n && Node.noCodeBlockList ns
end

/-- The type of `RenderNodeHook` callbacks, with the program state threaded
through: `none` on a panic, otherwise the new state, the bytes written to `w`,
the walk status and the handled flag. -/
abbrev Hook (c : Chroma) (α : Type) : Type :=
  State c → Node α → Bool → Option (State c × String × WalkStatus × Bool)

/-- The function `renderHookCodeInfo` (njbrender.go, lines 49-62). -/
def renderHookCodeInfo (c : Chroma) {α : Type} : Hook c α :=
  fun s node _entering =>
    match node with
    | .CodeBlock literal info =>
      match writeCode c s literal info with
      | none => none
      | some (s1, out, some e) =>
        some ({ s1 with stderr := s1.stderr ++ "Error parsing code block: " ++ e ++ "\n" },
              out, .GoToNext, true)
      | some (s1, out, none) => some (s1, out, .GoToNext, true)
    | _ => some (s, "", .GoToNext, false)

/-! ## The gomarkdown library -/

/-- The operations of the gomarkdown library that `main` reaches through
`parser.NewWithExtensions`, `html.NewRenderer` and `markdown.ToHTML`; `R` is
the type of the renderer's private state. -/
structure Markdown (α R : Type) where
  /-- Bit positions of the `parser.Extensions` constants. -/
  extBit : ParserExt → Nat
  /-- Bit positions of the `html.Flags` constants. -/
  flagBit : HtmlFlag → Nat
  /-- Parsing of the input by a parser created with the given extensions. -/
  parse : Nat → String → Node α
  /-- The private state of a renderer created with the given flags. -/
  newRenderer : Nat → R
  /-- The method `RenderHeader`: the bytes written and the new state. -/
  renderHeader : R → Node α → String × R
  /-- The default handling of one node inside `RenderNode`: the walk status,
  the bytes written and the new state. -/
  renderDefault : R → Node α → Bool → WalkStatus × String × R
  /-- The method `RenderFooter`: the bytes written and the new state. -/
  renderFooter : R → Node α → String × R

/-- What a rendering pass carries along: the program state, the renderer's
private state and the output buffer. -/
structure Pass (c : Chroma) (R : Type) where
  st : State c
  r : R
  buf : String

/-- Modelled from the spec: the renderer's per-node entry point
(`html.Renderer.RenderNode`, library code that is not in src/).  Before
emitting default HTML for a node the renderer invokes the hook, when one is
installed; if the hook reports the node as handled its status is returned and
default handling is skipped, otherwise default handling proceeds. -/
def renderNode (c : Chroma) {α R : Type} (m : Markdown α R) (hook : Option (Hook c α))
    (x : Pass c R) (node : Node α) (entering : Bool) :
    Option (WalkStatus × Pass c R) :=
  let dflt (x : Pass c R) : Option (WalkStatus × Pass c R) :=
    let d := m.renderDefault x.r node entering
    some (d.1, { x with r := d.2.2, buf := x.buf ++ d.2.1 })
  match hook with
  | none => dflt x
  | some h =>
    match h x.st node entering with
    | none => none
    | some (st1, out, status, didHandle) =>
      let x1 : Pass c R := { x with st := st1, buf := x.buf ++ out }
      if didHandle then some (status, x1) else dflt x1

mutual
/-- Modelled from the spec: the tree walk of the library (`ast.Walk`, not in
src/).  Every node is visited on entering; a container's children are walked
in order unless the visitor asked to skip them, and the container is visited
again on leaving.  `Terminate` stops the walk. -/
def walk {α S : Type} (visit : S → Node α → Bool → Option (WalkStatus × S)) :
    Node α → S → Option (WalkStatus × S)
  | .container p cs, s =>
    match visit s (.container p cs) true with
    | none => none
    | some (.Terminate, s1) =>
      match visit s1 (.container p cs) false with
      | none => none
      | some (_, s2) => some (.Terminate, s2)
    | some (.SkipChildren, s1) =>
      match visit s1 (.container p cs) false with
      | none => none
      | some (.Terminate, s2) => some (.Terminate, s2)
      | some (_, s2) => some (.GoToNext, s2)
    | some (.GoToNext, s1) =>
      match walkList visit cs s1 with
      | none => none
      | some (.Terminate, s2) => some (.Terminate, s2)
      | some (_, s2) =>
        match visit s2 (.container p cs) false with
        | none => none
        | some (.Terminate, s3) => some (.Terminate, s3)
        | some (_, s3) => some (.GoToNext, s3)
  | .leaf p, s =>
    match visit s (.leaf p) true with
    | none => none
    | some (.Terminate, s1) => some (.Terminate, s1)
    | some (_, s1) => some (.GoToNext, s1)
  | .CodeBlock l i, s =>
    match visit s (.CodeBlock l i) true with
    | none => none
    | some (.Terminate, s1) => some (.Terminate, s1)
    | some (_, s1) => some (.GoToNext, s1)
/-- The loop of `ast.Walk` over the children of a container. -/
def walkList {α S : Type} (visit : S → Node α → Bool → Option (WalkStatus × S)) :
    List (Node α) → S → Option (WalkStatus × S)
  | [], s => some (.GoToNext, s)
  | n :: ns, s =>
    match walk visit n s with
    | none => none
    | some (.Terminate, s1) => some (.Terminate, s1)
    | some (_, s1) => walkList visit ns s1
end

/-- Modelled from the spec: `markdown.Render` (library code, not in src/):
header, walk of the document with `RenderNode` as visitor, footer.  The
result is `none` on a panic, otherwise the final program state and the bytes
of the buffer. -/
def render (c : Chroma) {α R : Type} (m : Markdown α R) (hook : Option (Hook c α))
    (flags : Nat) (s : State c) (doc : Node α) : Option (State c × String) :=
  let r0 := m.newRenderer flags
  let h := m.renderHeader r0 doc
  match walk (renderNode c m hook) doc { st := s, r := h.2, buf := h.1 } with
  | none => none
  | some (_, x) =>
    let f := m.renderFooter x.r doc
    some (x.st, x.buf ++ f.1)

/-- Modelled from the spec: `markdown.ToHTML` (library code, not in src/):
parse the input, then render the document. -/
def toHTML (c : Chroma) {α R : Type} (m : Markdown α R) (hook : Option (Hook c α))
    (exts flags : Nat) (s : State c) (input : String) : Option (State c × String) :=
  render c m hook flags s (m.parse exts input)

/-! ## The program's environment and `main` -/

/-- The standard streams as `main` meets them: what `ioutil.ReadAll(os.Stdin)`
returns, and what `os.Stdout.Write` does with a buffer (the bytes that reach
standard output and the returned error). -/
structure World where
  stdinData : String
  stdinErr : Option String
  stdoutWrite : String → String × Option String

/-- What a run of `main` leaves behind. -/
structure Outcome (c : Chroma) where
  /-- The argument of `os.Exit`, or 0 when `main` returns. -/
  exitStatus : Int
  /-- The buffer handed to `os.Stdout.Write`, if the run got that far. -/
  offered : Option String
  /-- The bytes that reached standard output. -/
  stdout : String
  /-- The bytes sent to standard error. -/
  stderr : String
  /-- The final program state. -/
  st : State c

/-- The function `main` (njbrender.go, lines 64-94) with an arbitrary hook
installed as `RenderNodeHook`.  The result is `none` on a panic. -/
def mainWith (c : Chroma) {α R : Type} (m : Markdown α R) (hook : Option (Hook c α))
    (w : World) : Option (Outcome c) :=
  match w.stdinErr with
  | some e =>
    some { exitStatus := -1, offered := none, stdout := "",
           stderr := "Error reading from stdin: " ++ e ++ "\n",
           st := State.init c }
  | none =>
    match toHTML c m hook (extensions m.extBit) (htmlFlags m.flagBit)
        (State.init c) w.stdinData with
    | none => none
    | some (s, output) =>
      match w.stdoutWrite output with
      | (written, some e) =>
        some { exitStatus := -1, offered := some output, stdout := written,
               stderr := s.stderr ++ "Error writing output: " ++ e ++ "\n", st := s }
      | (written, none) =>
        some { exitStatus := 0, offered := some output, stdout := written,
               stderr := s.stderr, st := s }

/-- The function `main` (njbrender.go, lines 64-94): `renderHookCodeInfo` is
the installed hook. -/
def main (c : Chroma) {α R : Type} (m : Markdown α R) (w : World) : Option (Outcome c) :=
  mainWith c m (some (renderHookCodeInfo c)) w

/-- A run of consecutive `writeCode` calls, one per `(text, codeType)` pair;
`none` on a panic. -/
def writeCodes (c : Chroma) : State c → List (String × String) → Option (State c)
  | s, [] => some s
  | s, (text, codeType) :: rest =>
    match writeCode c s text codeType with
    | none => none
    | some (s1, _, _) => writeCodes c s1 rest

/-- The states in which a call of `fmtr.Format` cannot meet a nil interface:
whenever `isSetup` is true, `fmtr` is not the nil interface. -/
def State.wf {c : Chroma} (s : State c) : Prop :=
  s.isSetup = true → s.fmtr.isSome = true

/-! ## Reference pipeline and auxiliary definitions -/

/-- The lexer `writeCode` ends up with for an info string (lines 39-40). -/
def resolveLexer (c : Chroma) (codeType : String) : c.Lexer :=
  match c.lexersGet codeType with
  | none => c.lexersFallback
  | some l => l

/-- Tokenise `text` with `Coalesce(L)` and, unless that fails, format the
tokens through the formatter pointer `p` with the fallback style: the bytes
written and the error. -/
def pipelineWith (c : Chroma) (p : Option c.Formatter) (L : c.Lexer) (text : String) :
    String × Option String :=
  match c.tokenise (c.coalesce L) text with
  | .error e => ("", some e)
  | .ok toks => c.format p c.stylesFallback toks

/-- The reference pipeline of the specification (section 4.3, steps 2-5):
the lexer registered under the info string, or the fallback lexer when none
is registered, then `pipelineWith`. -/
def writeCodeRef (c : Chroma) (p : Option c.Formatter) (text codeType : String) :
    String × Option String :=
  pipelineWith c p ((c.lexersGet codeType).getD c.lexersFallback) text

/-- The calls `highlight` logs for a text and info string. -/
def highlightCalls (c : Chroma) (text codeType : String) : List LibCall :=
  match c.tokenise (c.coalesce (resolveLexer c codeType)) text with
  | .error _ => [.lexersGet codeType, .coalesce, .tokenise text]
  | .ok _ => [.lexersGet codeType, .coalesce, .tokenise text, .format]

/-- The states a run can reach: when `isSetup` is true, `fmtr` holds the
pointer the constructor returns. -/
def State.reach {c : Chroma} (s : State c) : Prop :=
  s.isSetup = true → s.fmtr = some c.newFormatter

/-- Whether a run of three backquotes or three tildes, the markers that open
and close a fenced code block, starts somewhere in the characters. -/
def fenceIn : List Char → Bool
  | [] => false
  | ch :: rest =>
    ("```".toList.isPrefixOf (ch :: rest) || "~~~".toList.isPrefixOf (ch :: rest))
      || fenceIn rest

/-- Whether the input text contains a code fence. -/
def hasCodeFence (input : String) : Bool :=
  fenceIn input.toList

/-! ## Sample libraries used to run the definitions -/

/-- A small chroma: lexer 1 is registered as "go", lexer 0 is the fallback,
tokenising splits the text into characters and fails on the text "bad";
formatting wraps every token in a span whose class is the lexer number, and
through a nil pointer it writes nothing and reports an error. -/
def sampleChroma : Chroma where
  Lexer := Nat
  Formatter := Unit
  Tokens := Nat × List Char
  Style := Unit
  newFormatter := some ()
  lexersGet := fun name => if name = "go" then some 1 else none
  lexersFallback := 0
  coalesce := fun l => l
  tokenise := fun l text =>
    if text = "bad" then .error "cannot tokenise" else .ok (l, text.toList)
  stylesFallback := ()
  format := fun p _ toks =>
    match p with
    | none => ("", some "nil formatter")
    | some _ =>
      (String.join (toks.2.map fun ch =>
          "<span class=\"c" ++ toString toks.1 ++ "\">" ++ String.singleton ch ++ "</span>"),
       none)

/-- The sample chroma with a constructor that returns the nil pointer. -/
def nilChroma : Chroma :=
  { sampleChroma with newFormatter := none }

/-- A small gomarkdown: payloads are tag names.  The parser turns the input
"code" into a document holding one code block tagged "go"; as the library
does, it turns a text indented by four spaces into a document holding one
code block with an empty info string; any other input becomes a document
holding one paragraph.  Default handling writes opening and closing tags. -/
def sampleMarkdown : Markdown String Unit where
  extBit := ParserExt.libBit
  flagBit := HtmlFlag.libBit
  parse := fun _ input =>
    if input = "code" then .container "doc" [.CodeBlock "ab" "go"]
    else if input.toList.take 4 = "    ".toList then
      .container "doc" [.CodeBlock (String.mk (input.toList.drop 4)) ""]
    else .container "doc" [.container "p" [.leaf input]]
  newRenderer := fun _ => ()
  renderHeader := fun r _ => ("", r)
  renderDefault := fun r node entering =>
    match node with
    | .container p _ => (.GoToNext, (if entering then "<" ++ p ++ ">" else "</" ++ p ++ ">"), r)
    | .leaf p => (.GoToNext, p, r)
    | .CodeBlock l _ => (.GoToNext, "<pre>" ++ l ++ "</pre>", r)
  renderFooter := fun r _ => ("", r)

/-- A world whose streams work: the given input, and a standard output that
accepts every byte. -/
def goodWorld (input : String) : World :=
  { stdinData := input, stdinErr := none, stdoutWrite := fun b => (b, none) }

theorem hasFlag_eq_testBit {α : Type} (bit : α → Nat) (flags : Nat) (x : α) :
    hasFlag bit flags x = flags.testBit (bit x) := by
  unfold hasFlag flagValue
  rw [Bool.eq_iff_iff]
  simp only [bne_iff_ne, ne_eq]
  constructor
  · intro h
    by_contra hc
    apply h
    apply Nat.eq_of_testBit_eq
    intro i
    simp only [Nat.testBit_and, Nat.testBit_two_pow, Nat.zero_testBit]
    by_cases hi : bit x = i
    · subst hi; simpa using hc
    · simp [hi]
  · intro h hz
    have := congrArg (fun n => Nat.testBit n (bit x)) hz
    simp [Nat.testBit_and, Nat.testBit_two_pow, h] at this

theorem parserExt_libBit_injective : Function.Injective ParserExt.libBit := by
  intro a b h
  cases a <;> cases b <;> first | rfl | (exact absurd h (by decide))

theorem htmlFlag_libBit_injective : Function.Injective HtmlFlag.libBit := by
  intro a b h
  cases a <;> cases b <;> first | rfl | (exact absurd h (by decide))

theorem testBit_extensions (bit : ParserExt → Nat) (i : Nat) :
    (extensions bit).testBit i =
      (listedExtensions.any fun e => decide (bit e = i)) := by
  simp [extensions, flagValue, listedExtensions, Nat.testBit_or, Nat.testBit_two_pow,
    Bool.or_assoc]

theorem testBit_htmlFlags (bit : HtmlFlag → Nat) (i : Nat) :
    (htmlFlags bit).testBit i =
      (enabledHtmlFlags.any fun e => decide (bit e = i)) := by
  simp [htmlFlags, flagValue, enabledHtmlFlags, Nat.testBit_or, Nat.testBit_two_pow,
    Bool.or_assoc]

theorem hasFlag_extensions (bit : ParserExt → Nat) (hbit : Function.Injective bit)
    (e : ParserExt) : hasFlag bit (extensions bit) e = decide (e ∈ listedExtensions) := by
  rw [hasFlag_eq_testBit, testBit_extensions, Bool.eq_iff_iff]
  simp only [List.any_eq_true, decide_eq_true_eq, hbit.eq_iff]
  constructor
  · rintro ⟨x, hx, rfl⟩; exact hx
  · intro h; exact ⟨e, h, rfl⟩

theorem hasFlag_htmlFlags (bit : HtmlFlag → Nat) (hbit : Function.Injective bit)
    (f : HtmlFlag) : hasFlag bit (htmlFlags bit) f = decide (f ∈ enabledHtmlFlags) := by
  rw [hasFlag_eq_testBit, testBit_htmlFlags, Bool.eq_iff_iff]
  simp only [List.any_eq_true, decide_eq_true_eq, hbit.eq_iff]
  constructor
  · rintro ⟨x, hx, rfl⟩; exact hx
  · intro h; exact ⟨f, h, rfl⟩

/-! ## Facts about `setupSyntax`, `highlight` and `writeCode` -/

theorem constructions_append (l₁ l₂ : List LibCall) :
    constructions (l₁ ++ l₂) = constructions l₁ + constructions l₂ := by
  simp [constructions]

/-- The interface value stored by line 25 is never the nil interface, so the
error branch of line 27 is never taken. -/
theorem setupSyntax_eq (c : Chroma) (s : State c) :
    setupSyntax c s =
      ({ s with fmtr := some c.newFormatter, calls := s.calls ++ [.newFormatter],
                isSetup := true },
       none) := by
  simp [setupSyntax]

theorem resolveLexer_eq (c : Chroma) (codeType : String) :
    resolveLexer c codeType = (c.lexersGet codeType).getD c.lexersFallback := by
  unfold resolveLexer
  cases c.lexersGet codeType <;> rfl

theorem constructions_highlightCalls (c : Chroma) (text codeType : String) :
    constructions (highlightCalls c text codeType) = 0 := by
  unfold highlightCalls
  cases c.tokenise (c.coalesce (resolveLexer c codeType)) text <;>
    simp [constructions]

theorem highlightCalls_ne_nil (c : Chroma) (text codeType : String) :
    highlightCalls c text codeType ≠ [] := by
  unfold highlightCalls
  cases c.tokenise (c.coalesce (resolveLexer c codeType)) text <;> simp

theorem highlight_some (c : Chroma) (s : State c) (p : Option c.Formatter)
    (text codeType : String) (hf : s.fmtr = some p) :
    highlight c s text codeType =
      some ({ s with calls := s.calls ++ highlightCalls c text codeType },
            writeCodeRef c p text codeType) := by
  unfold highlight writeCodeRef pipelineWith highlightCalls
  rw [← resolveLexer_eq]
  show (match c.tokenise (c.coalesce (resolveLexer c codeType)) text with
    | .error e => _ | .ok stuff => _) = _
  cases h : c.tokenise (c.coalesce (resolveLexer c codeType)) text with
  | error e => simp
  | ok toks => simp [hf]

theorem writeCode_setup (c : Chroma) (s : State c) (p : Option c.Formatter)
    (text codeType : String) (h1 : s.isSetup = true) (h2 : s.fmtr = some p) :
    writeCode c s text codeType =
      some ({ s with calls := s.calls ++ highlightCalls c text codeType },
            writeCodeRef c p text codeType) := by
  unfold writeCode
  rw [if_neg (by simp [h1])]
  exact highlight_some c s p text codeType h2

theorem writeCode_fresh (c : Chroma) (s : State c)
    (text codeType : String) (h1 : s.isSetup = false) :
    writeCode c s text codeType =
      some ({ s with fmtr := some c.newFormatter, isSetup := true,
                     calls := s.calls ++ [.newFormatter] ++ highlightCalls c text codeType },
            writeCodeRef c c.newFormatter text codeType) := by
  unfold writeCode
  rw [if_pos (by simp [h1]), setupSyntax_eq c s]
  simp only
  rw [highlight_some c _ c.newFormatter text codeType rfl]

theorem State.reach_init (c : Chroma) : (State.init c).reach := by
  intro h; simp [State.init] at h

theorem State.wf_init (c : Chroma) : (State.init c).wf := by
  intro h; simp [State.init] at h

theorem State.reach_wf {c : Chroma} (s : State c) (h : s.reach) : s.wf :=
  fun hs => by rw [h hs]; rfl

/-- From a well-formed state `writeCode` returns, keeps the state well
formed, leaves the error stream alone and logs at least one library call. -/
theorem writeCode_total (c : Chroma) (s : State c) (text codeType : String)
    (h : s.wf) :
    ∃ s1 out e, writeCode c s text codeType = some (s1, out, e) ∧ s1.wf ∧
      s1.stderr = s.stderr ∧ s.calls.length < s1.calls.length ∧
      (s.reach → s1.reach) := by
  have hpos : 0 < (highlightCalls c text codeType).length :=
    List.length_pos.mpr (highlightCalls_ne_nil c text codeType)
  cases hs : s.isSetup with
  | true =>
    have hsome := h hs
    obtain ⟨p, hp⟩ := Option.isSome_iff_exists.mp hsome
    refine ⟨_, _, _, writeCode_setup c s p text codeType hs hp, ?_, rfl, ?_, ?_⟩
    · intro _; simpa using hsome
    · simp only [List.length_append]
      omega
    · intro hr _; exact hr hs
  | false =>
    refine ⟨_, _, _, writeCode_fresh c s text codeType hs, ?_, rfl, ?_, ?_⟩
    · intro _; rfl
    · simp only [List.length_append]; omega
    · intro _ _; rfl

/-! ## Facts about the hook and the walk -/

theorem hook_other (c : Chroma) {α : Type} (s : State c) (n : Node α) (e : Bool)
    (h : n.isCodeBlock = false) :
    renderHookCodeInfo c s n e = some (s, "", .GoToNext, false) := by
  cases n with
  | CodeBlock l i => simp [Node.isCodeBlock] at h
  | leaf p => rfl
  | container p cs => rfl

theorem hook_total (c : Chroma) {α : Type} (s : State c) (n : Node α) (e : Bool)
    (h : s.wf) :
    ∃ s1 out, renderHookCodeInfo c s n e = some (s1, out, .GoToNext, n.isCodeBlock) ∧
      s1.wf ∧ (n.isCodeBlock = false → s1 = s ∧ out = "") := by
  cases n with
  | leaf p => exact ⟨s, "", rfl, h, fun _ => ⟨rfl, rfl⟩⟩
  | container p cs => exact ⟨s, "", rfl, h, fun _ => ⟨rfl, rfl⟩⟩
  | CodeBlock l i =>
    obtain ⟨s1, out, r, hw, hwf, -, -, -⟩ := writeCode_total c s l i h
    cases r with
    | none =>
      exact ⟨s1, out, by simp [renderHookCodeInfo, hw, Node.isCodeBlock], hwf,
        fun hc => by simp [Node.isCodeBlock] at hc⟩
    | some msg =>
      exact ⟨{ s1 with stderr := s1.stderr ++ "Error parsing code block: " ++ msg ++ "\n" },
        out, by simp only [renderHookCodeInfo, hw, Node.isCodeBlock], hwf,
        fun hc => by simp [Node.isCodeBlock] at hc⟩

mutual
theorem walk_inv {α S : Type} (visit : S → Node α → Bool → Option (WalkStatus × S))
    (P : S → Prop)
    (hv : ∀ s n e, P s → ∃ st s1, visit s n e = some (st, s1) ∧ P s1) :
    ∀ (n : Node α) (s : S), P s → ∃ st s1, walk visit n s = some (st, s1) ∧ P s1
  | .leaf p, s, hs => by
    obtain ⟨st, s1, h1, hp⟩ := hv s (.leaf p) true hs
    cases st
    · exact ⟨.GoToNext, s1, by simp [walk, h1], hp⟩
    · exact ⟨.GoToNext, s1, by simp [walk, h1], hp⟩
    · exact ⟨.Terminate, s1, by simp [walk, h1], hp⟩
  | .CodeBlock l i, s, hs => by
    obtain ⟨st, s1, h1, hp⟩ := hv s (.CodeBlock l i) true hs
    cases st
    · exact ⟨.GoToNext, s1, by simp [walk, h1], hp⟩
    · exact ⟨.GoToNext, s1, by simp [walk, h1], hp⟩
    · exact ⟨.Terminate, s1, by simp [walk, h1], hp⟩
  | .container p cs, s, hs => by
    obtain ⟨st, s1, h1, hp1⟩ := hv s (.container p cs) true hs
    obtain ⟨st2, s2, h2, hp2⟩ := hv s1 (.container p cs) false hp1
    cases st with
    | Terminate => exact ⟨.Terminate, s2, by simp [walk, h1, h2], hp2⟩
    | SkipChildren =>
      cases st2
      · exact ⟨.GoToNext, s2, by simp [walk, h1, h2], hp2⟩
      · exact ⟨.GoToNext, s2, by simp [walk, h1, h2], hp2⟩
      · exact ⟨.Terminate, s2, by simp [walk, h1, h2], hp2⟩
    | GoToNext =>
      obtain ⟨st3, s3, h3, hp3⟩ := walkList_inv visit P hv cs s1 hp1
      obtain ⟨st4, s4, h4, hp4⟩ := hv s3 (.container p cs) false hp3
      cases st3 with
      | Terminate => exact ⟨.Terminate, s3, by simp [walk, h1, h3], hp3⟩
      | SkipChildren =>
        cases st4
        · exact ⟨.GoToNext, s4, by simp [walk, h1, h3, h4], hp4⟩
        · exact ⟨.GoToNext, s4, by simp [walk, h1, h3, h4], hp4⟩
        · exact ⟨.Terminate, s4, by simp [walk, h1, h3, h4], hp4⟩
      | GoToNext =>
        cases st4
        · exact ⟨.GoToNext, s4, by simp [walk, h1, h3, h4], hp4⟩
        · exact ⟨.GoToNext, s4, by simp [walk, h1, h3, h4], hp4⟩
        · exact ⟨.Terminate, s4, by simp [walk, h1, h3, h4], hp4⟩
theorem walkList_inv {α S : Type} (visit : S → Node α → Bool → Option (WalkStatus × S))
    (P : S → Prop)
    (hv : ∀ s n e, P s → ∃ st s1, visit s n e = some (st, s1) ∧ P s1) :
    ∀ (ns : List (Node α)) (s : S), P s →
      ∃ st s1, walkList visit ns s = some (st, s1) ∧ P s1
  | [], s, hs => ⟨.GoToNext, s, by simp [walkList], hs⟩
  | n :: ns, s, hs => by
    obtain ⟨st, s1, h1, hp1⟩ := walk_inv visit P hv n s hs
    obtain ⟨st2, s2, h2, hp2⟩ := walkList_inv visit P hv ns s1 hp1
    cases st with
    | Terminate => exact ⟨.Terminate, s1, by simp [walkList, h1], hp1⟩
    | SkipChildren => exact ⟨st2, s2, by simp [walkList, h1, h2], hp2⟩
    | GoToNext => exact ⟨st2, s2, by simp [walkList, h1, h2], hp2⟩
end

mutual
theorem walk_congr {α S : Type} (v1 v2 : S → Node α → Bool → Option (WalkStatus × S))
    (hv : ∀ s n e, n.isCodeBlock = false → v1 s n e = v2 s n e) :
    ∀ (n : Node α) (s : S), n.noCodeBlock = true → walk v1 n s = walk v2 n s
  | .leaf p, s, _ => by simp [walk, hv s (.leaf p) true rfl]
  | .CodeBlock l i, s, h => by simp [Node.noCodeBlock] at h
  | .container p cs, s, h => by
    have hl : ∀ s, walkList v1 cs s = walkList v2 cs s := fun s =>
      walkList_congr v1 v2 hv cs s (by simpa [Node.noCodeBlock] using h)
    have hc : ∀ s e, v1 s (.container p cs) e = v2 s (.container p cs) e :=
      fun s e => hv s _ e rfl
    simp only [walk, hc, hl]
theorem walkList_congr {α S : Type} (v1 v2 : S → Node α → Bool → Option (WalkStatus × S))
    (hv : ∀ s n e, n.isCodeBlock = false → v1 s n e = v2 s n e) :
    ∀ (ns : List (Node α)) (s : S), Node.noCodeBlockList ns = true →
      walkList v1 ns s = walkList v2 ns s
  | [], s, _ => by simp [walkList]
  | n :: ns, s, h => by
    have h' : n.noCodeBlock = true ∧ Node.noCodeBlockList ns = true := by
      simpa [Node.noCodeBlockList] using h
    have h1 := walk_congr v1 v2 hv n s h'.1
    have h2 : ∀ s, walkList v1 ns s = walkList v2 ns s := fun s =>
      walkList_congr v1 v2 hv ns s h'.2
    simp only [walkList, h1, h2]
end

theorem renderNode_other (c : Chroma) {α R : Type} (m : Markdown α R) (x : Pass c R)
    (n : Node α) (e : Bool) (h : n.isCodeBlock = false) :
    renderNode c m (some (renderHookCodeInfo c)) x n e = renderNode c m none x n e := by
  simp [renderNode, hook_other c x.st n e h]

theorem renderNode_hook_total (c : Chroma) {α R : Type} (m : Markdown α R) (x : Pass c R)
    (n : Node α) (e : Bool) (h : x.st.wf) :
    ∃ st x1, renderNode c m (some (renderHookCodeInfo c)) x n e = some (st, x1) ∧
      x1.st.wf := by
  obtain ⟨s1, out, hh, hwf, -⟩ := hook_total c x.st n e h
  cases hc : n.isCodeBlock with
  | true =>
    exact ⟨.GoToNext, { x with st := s1, buf := x.buf ++ out },
      by simp [renderNode, hh, hc], hwf⟩
  | false =>
    exact ⟨(m.renderDefault x.r n e).1,
      { st := s1, r := (m.renderDefault x.r n e).2.2,
        buf := x.buf ++ out ++ (m.renderDefault x.r n e).2.1 },
      by simp [renderNode, hh, hc], hwf⟩

theorem renderNode_none_total (c : Chroma) {α R : Type} (m : Markdown α R) (x : Pass c R)
    (n : Node α) (e : Bool) :
    ∃ st x1, renderNode c m none x n e = some (st, x1) ∧ x1.st = x.st :=
  ⟨_, _, rfl, rfl⟩

theorem highlight_frame (c : Chroma) (s s1 : State c) (text codeType out : String)
    (r : Option String) (h : highlight c s text codeType = some (s1, out, r)) :
    s1.stderr = s.stderr ∧ s1.fmtr = s.fmtr ∧ s1.isSetup = s.isSetup ∧
      constructions s1.calls = constructions s.calls ∧
      s.calls.length < s1.calls.length := by
  cases hf : s.fmtr with
  | some f =>
    rw [highlight_some c s f text codeType hf] at h
    simp only [Option.some.injEq, Prod.mk.injEq] at h
    obtain ⟨rfl, -⟩ := h
    have := List.length_pos.mpr (highlightCalls_ne_nil c text codeType)
    simp [hf, constructions_append, constructions_highlightCalls, this]
  | none =>
    unfold highlight at h
    cases ht : c.tokenise (c.coalesce (match c.lexersGet codeType with
        | none => c.lexersFallback | some l => l)) text with
    | error e =>
      simp only [ht, Option.some.injEq, Prod.mk.injEq] at h
      obtain ⟨rfl, -⟩ := h
      simp [hf, constructions_append, constructions]
    | ok toks => simp [ht, hf] at h

theorem writeCode_frame (c : Chroma) (s s1 : State c) (text codeType out : String)
    (r : Option String) (h : writeCode c s text codeType = some (s1, out, r)) :
    s1.stderr = s.stderr ∧ s.calls.length < s1.calls.length ∧
      (s.isSetup = true → s1.fmtr = s.fmtr ∧ s1.isSetup = true ∧
        constructions s1.calls = constructions s.calls) := by
  cases hs : s.isSetup with
  | true =>
    unfold writeCode at h
    rw [if_neg (by simp [hs])] at h
    obtain ⟨h1, h2, h3, h4, h5⟩ := highlight_frame c s s1 text codeType out r h
    exact ⟨h1, h5, fun _ => ⟨h2, h3.trans hs, h4⟩⟩
  | false =>
    rw [writeCode_fresh c s text codeType hs] at h
    simp only [Option.some.injEq, Prod.mk.injEq] at h
    obtain ⟨rfl, -⟩ := h
    exact ⟨rfl, by simp, fun hc => by simp at hc⟩

/-! ## The claims -/

/-- C1: for every node and every value of the entering flag, from a state in
which `isSetup` implies a non-nil `fmtr`, `renderHookCodeInfo` returns the walk
status `GoToNext` together with a handled flag that is true exactly when the
node is a code block, whatever `writeCode` returned; for any other node it
changes nothing and writes nothing. -/
theorem renderHookCodeInfo_status (c : Chroma) {α : Type} (s : State c)
    (node : Node α) (entering : Bool) (h : s.wf) :
    ∃ s1 out,
      renderHookCodeInfo c s node entering = some (s1, out, .GoToNext, node.isCodeBlock) ∧
      (node.isCodeBlock = false → s1 = s ∧ out = "") := by
  obtain ⟨s1, out, h1, -, h2⟩ := hook_total c s node entering h
  exact ⟨s1, out, h1, h2⟩

/-- Witness of C1 on a code block tagged "go", from the initial state. -/
theorem renderHookCodeInfo_status_witness :
    (State.init sampleChroma).wf ∧
    ∃ s1 out,
      renderHookCodeInfo sampleChroma (State.init sampleChroma)
        (Node.CodeBlock "ab" "go" : Node String) true
        = some (s1, out, .GoToNext, (Node.CodeBlock "ab" "go" : Node String).isCodeBlock) ∧
      ((Node.CodeBlock "ab" "go" : Node String).isCodeBlock = false →
        s1 = State.init sampleChroma ∧ out = "") :=
  ⟨State.wf_init _,
   renderHookCodeInfo_status sampleChroma (State.init sampleChroma)
     (Node.CodeBlock "ab" "go") true (State.wf_init _)⟩

/-- C2: when `writeCode` returns on a code block with result `r`, the hook
returns `(GoToNext, true)` and passes on exactly the bytes `writeCode` wrote;
`writeCode` itself leaves the error stream alone; if `r` is an error `e` the
hook appends exactly the line "Error parsing code block: " ++ e ++ newline to
the error stream, and if `r` is no error the error stream is unchanged.  The
variables `fmtr`, `isSetup` and the call log are as `writeCode` left them. -/
theorem renderHookCodeInfo_logs_error (c : Chroma) {α : Type} (s s1 : State c)
    (literal info out : String) (r : Option String) (entering : Bool)
    (hw : writeCode c s literal info = some (s1, out, r)) :
    ∃ s2,
      renderHookCodeInfo c s (Node.CodeBlock literal info : Node α) entering
        = some (s2, out, .GoToNext, true) ∧
      s2.fmtr = s1.fmtr ∧ s2.isSetup = s1.isSetup ∧ s2.calls = s1.calls ∧
      s1.stderr = s.stderr ∧
      (∀ e, r = some e →
        s2.stderr = s.stderr ++ ("Error parsing code block: " ++ e ++ "\n")) ∧
      (r = none → s2.stderr = s.stderr) := by
  have hst := (writeCode_frame c s s1 literal info out r hw).1
  cases r with
  | none =>
    exact ⟨s1, by simp [renderHookCodeInfo, hw], rfl, rfl, rfl, hst,
      fun e he => by simp at he, fun _ => hst⟩
  | some msg =>
    refine ⟨{ s1 with stderr := s1.stderr ++ "Error parsing code block: " ++ msg ++ "\n" },
      by simp only [renderHookCodeInfo, hw], rfl, rfl, rfl, hst, ?_, fun h => by simp at h⟩
    intro e he
    simp only [Option.some.injEq] at he
    subst he
    simp [hst, String.append_assoc]

/-- Witness of C2: a code block whose text the sample lexer rejects. -/
theorem renderHookCodeInfo_logs_error_witness :
    writeCode sampleChroma (State.init sampleChroma) "bad" "go"
      = some ({ fmtr := some (some ()), isSetup := true, stderr := "",
                calls := [.newFormatter, .lexersGet "go", .coalesce, .tokenise "bad"] },
              "", some "cannot tokenise") ∧
    ∃ s2,
      renderHookCodeInfo sampleChroma (State.init sampleChroma)
        (Node.CodeBlock "bad" "go" : Node String) true
        = some (s2, "", .GoToNext, true) ∧
      s2.fmtr = some (some ()) ∧ s2.isSetup = true ∧
      s2.calls = [.newFormatter, .lexersGet "go", .coalesce, .tokenise "bad"] ∧
      "" = (State.init sampleChroma).stderr ∧
      (∀ e, some "cannot tokenise" = some e →
        s2.stderr = (State.init sampleChroma).stderr ++
          ("Error parsing code block: " ++ e ++ "\n")) ∧
      (some "cannot tokenise" = none → s2.stderr = (State.init sampleChroma).stderr) :=
  ⟨rfl,
   renderHookCodeInfo_logs_error sampleChroma (State.init sampleChroma)
     { fmtr := some (some ()), isSetup := true, stderr := "",
       calls := [.newFormatter, .lexersGet "go", .coalesce, .tokenise "bad"] }
     "bad" "go" "" (some "cannot tokenise") true rfl⟩

/-- C3 fails on the code: when `isSetup` is false and the constructor returns
the nil pointer, `writeCode` does not return the setup error.  The interface
`fmtr` holding that pointer is not the nil interface, so `setupSyntax` sets
`isSetup` to true and returns no error, and `writeCode` goes on to look up the
lexer, tokenise and call `Format` through the nil pointer; what it returns is
the result of that call. -/
theorem writeCode_nil_formatter_proceeds :
    (State.init nilChroma).isSetup = false ∧ nilChroma.newFormatter = none ∧
    setupSyntax nilChroma (State.init nilChroma)
      = ({ fmtr := some none, isSetup := true, stderr := "", calls := [.newFormatter] },
         none) ∧
    writeCode nilChroma (State.init nilChroma) "ab" "go"
      = some ({ fmtr := some none, isSetup := true, stderr := "",
                calls := [.newFormatter, .lexersGet "go", .coalesce, .tokenise "ab",
                          .format] },
              "", some "nil formatter") :=
  ⟨rfl, rfl, rfl, rfl⟩

theorem writeCodes_setup (c : Chroma) (p : Option c.Formatter) :
    ∀ (calls : List (String × String)) (s : State c),
      s.isSetup = true → s.fmtr = some p →
      ∃ s1, writeCodes c s calls = some s1 ∧ s1.isSetup = true ∧ s1.fmtr = some p ∧
        constructions s1.calls = constructions s.calls
  | [], s, h1, h2 => ⟨s, rfl, h1, h2, rfl⟩
  | (t, k) :: rest, s, h1, h2 => by
    obtain ⟨s1, hw, h3, h4, h5⟩ :=
      writeCodes_setup c p rest
        { s with calls := s.calls ++ highlightCalls c t k } h1 h2
    refine ⟨s1, ?_, h3, h4, ?_⟩
    · simp only [writeCodes, writeCode_setup c s p t k h1 h2]
      exact hw
    · rw [h5]
      simp [constructions_append, constructions_highlightCalls]

/-- C4: over every non-empty sequence of `writeCode` calls from the initial
state (so in particular every sequence of N >= 2 calls) the run does not
panic, the formatter constructor is invoked exactly once, and the run ends
with `isSetup` true and the constructed pointer in `fmtr`; every call made
with `isSetup` true constructs nothing and keeps `fmtr`. -/
theorem writeCodes_constructions (c : Chroma) (calls : List (String × String))
    (hN : calls ≠ []) :
    (∃ s, writeCodes c (State.init c) calls = some s ∧ constructions s.calls = 1 ∧
        s.isSetup = true ∧ s.fmtr = some c.newFormatter) ∧
    (∀ (s : State c) t k r, s.isSetup = true → writeCode c s t k = some r →
      r.1.fmtr = s.fmtr ∧ r.1.isSetup = true ∧
        constructions r.1.calls = constructions s.calls) := by
  refine ⟨?_, ?_⟩
  · cases calls with
    | nil => exact absurd rfl hN
    | cons q rest =>
      obtain ⟨t, k⟩ := q
      obtain ⟨s1, hw, h3, h4, h5⟩ :=
        writeCodes_setup c c.newFormatter rest
          { fmtr := some c.newFormatter, isSetup := true, stderr := (State.init c).stderr,
            calls := (State.init c).calls ++ [.newFormatter] ++ highlightCalls c t k }
          rfl rfl
      refine ⟨s1, ?_, ?_, h3, h4⟩
      · simp only [writeCodes, writeCode_fresh c (State.init c) t k rfl]
        exact hw
      · rw [h5]
        show constructions ([] ++ [.newFormatter] ++ highlightCalls c t k) = 1
        rw [constructions_append, constructions_highlightCalls]
        rfl
  · intro s t k r hs hw
    obtain ⟨s1, out, e⟩ := r
    exact (writeCode_frame c s s1 t k out e hw).2.2 hs

/-- Witness of C4: two code blocks on the sample library. -/
theorem writeCodes_constructions_witness :
    ([("a", "go"), ("b", "")] : List (String × String)) ≠ [] ∧
    ∃ s, writeCodes sampleChroma (State.init sampleChroma) [("a", "go"), ("b", "")] = some s ∧
      constructions s.calls = 1 ∧ s.isSetup = true ∧
      s.fmtr = some sampleChroma.newFormatter :=
  ⟨by decide,
   (writeCodes_constructions sampleChroma [("a", "go"), ("b", "")] (by decide)).1⟩

/-- C5: once the formatter is available (either `isSetup` is true and `fmtr`
holds `f`, or `isSetup` is false and the constructor yields `f`), `writeCode`
returns exactly what the reference pipeline gives: the bytes and error of
tokenising with the coalesced registered lexer, or the coalesced fallback
lexer when none is registered, and formatting with `f` and the fallback
style; it leaves the error stream alone.  With an unregistered info string
the result is that of the pipeline run with the fallback lexer. -/
theorem writeCode_eq_reference (c : Chroma) (s : State c) (f : c.Formatter)
    (text codeType : String)
    (h : (s.isSetup = true ∧ s.fmtr = some (some f)) ∨
         (s.isSetup = false ∧ c.newFormatter = some f)) :
    ∃ s1,
      writeCode c s text codeType = some (s1, writeCodeRef c (some f) text codeType) ∧
      s1.fmtr = some (some f) ∧ s1.isSetup = true ∧ s1.stderr = s.stderr ∧
      (c.lexersGet codeType = none →
        writeCode c s text codeType
          = some (s1, pipelineWith c (some f) c.lexersFallback text)) := by
  have hfb : c.lexersGet codeType = none →
      writeCodeRef c (some f) text codeType
        = pipelineWith c (some f) c.lexersFallback text := by
    intro hn; simp [writeCodeRef, hn]
  rcases h with ⟨h1, h2⟩ | ⟨h1, h2⟩
  · have hw := writeCode_setup c s (some f) text codeType h1 h2
    exact ⟨_, hw, h2, h1, rfl, fun hn => by rw [hw, hfb hn]⟩
  · have hw := writeCode_fresh c s text codeType h1
    rw [h2] at hw
    exact ⟨_, hw, rfl, rfl, rfl, fun hn => by rw [hw, hfb hn]⟩

/-- Witness of C5: an unregistered info string on the sample library. -/
theorem writeCode_eq_reference_witness :
    ((State.init sampleChroma).isSetup = false ∧ sampleChroma.newFormatter = some ()) ∧
    ∃ s1,
      writeCode sampleChroma (State.init sampleChroma) "ab" "nonexistent-lang-xyz"
        = some (s1, writeCodeRef sampleChroma (some ()) "ab" "nonexistent-lang-xyz") ∧
      s1.fmtr = some (some ()) ∧ s1.isSetup = true ∧
      s1.stderr = (State.init sampleChroma).stderr ∧
      (sampleChroma.lexersGet "nonexistent-lang-xyz" = none →
        writeCode sampleChroma (State.init sampleChroma) "ab" "nonexistent-lang-xyz"
          = some (s1, pipelineWith sampleChroma (some ()) sampleChroma.lexersFallback "ab")) :=
  ⟨⟨rfl, rfl⟩,
   writeCode_eq_reference sampleChroma (State.init sampleChroma) () "ab"
     "nonexistent-lang-xyz" (Or.inr ⟨rfl, rfl⟩)⟩

theorem render_hook_total (c : Chroma) {α R : Type} (m : Markdown α R) (flags : Nat)
    (s : State c) (doc : Node α) (h : s.wf) :
    ∃ s1 bytes, render c m (some (renderHookCodeInfo c)) flags s doc = some (s1, bytes) := by
  obtain ⟨st, x, hw, -⟩ :=
    walk_inv (renderNode c m (some (renderHookCodeInfo c))) (fun x => x.st.wf)
      (fun x n e hx => renderNode_hook_total c m x n e hx) doc
      { st := s, r := (m.renderHeader (m.newRenderer flags) doc).2,
        buf := (m.renderHeader (m.newRenderer flags) doc).1 } h
  exact ⟨x.st, x.buf ++ (m.renderFooter x.r doc).1, by simp [render, hw]⟩

theorem render_none_total (c : Chroma) {α R : Type} (m : Markdown α R) (flags : Nat)
    (s : State c) (doc : Node α) :
    ∃ bytes, render c m none flags s doc = some (s, bytes) := by
  obtain ⟨st, x, hw, hx⟩ :=
    walk_inv (renderNode c m none) (fun x => x.st = s)
      (fun x n e hx => by
        obtain ⟨st, x1, h1, h2⟩ := renderNode_none_total c m x n e
        exact ⟨st, x1, h1, h2.trans hx⟩) doc
      { st := s, r := (m.renderHeader (m.newRenderer flags) doc).2,
        buf := (m.renderHeader (m.newRenderer flags) doc).1 } rfl
  exact ⟨x.buf ++ (m.renderFooter x.r doc).1, by simp [render, hw, hx]⟩

theorem main_total (c : Chroma) {α R : Type} (m : Markdown α R) (w : World) :
    ∃ o, main c m w = some o := by
  unfold main mainWith
  cases w.stdinErr with
  | some e => exact ⟨_, rfl⟩
  | none =>
    obtain ⟨s1, bytes, hr⟩ :=
      render_hook_total c m (htmlFlags m.flagBit) (State.init c)
        (m.parse (extensions m.extBit) w.stdinData) (State.wf_init c)
    simp only [toHTML, hr]
    cases hwr : w.stdoutWrite bytes with
    | mk written err =>
      cases err with
      | none => exact ⟨_, rfl⟩
      | some e => exact ⟨_, rfl⟩

theorem writeCodes_reach (c : Chroma) :
    ∀ (calls : List (String × String)) (s : State c), s.reach →
      ∃ s1, writeCodes c s calls = some s1 ∧ s1.reach
  | [], s, h => ⟨s, rfl, h⟩
  | (t, k) :: rest, s, h => by
    obtain ⟨s1, out, e, hw, -, -, -, hr⟩ := writeCode_total c s t k (State.reach_wf s h)
    obtain ⟨s2, h2, hr2⟩ := writeCodes_reach c rest s1 (hr h)
    exact ⟨s2, by simp only [writeCodes, hw]; exact h2, hr2⟩

theorem writeCode_out_reach (c : Chroma) (s : State c) (text codeType : String)
    (h : s.reach) :
    (writeCode c s text codeType).map Prod.snd
      = (writeCode c (State.init c) text codeType).map Prod.snd := by
  rw [writeCode_fresh c (State.init c) text codeType rfl]
  cases hs : s.isSetup with
  | true =>
    rw [writeCode_setup c s c.newFormatter text codeType hs (h hs)]
    rfl
  | false =>
    rw [writeCode_fresh c s text codeType hs]
    rfl

/-- C6 fails as stated: on the sample libraries the input of one line
indented by four spaces contains no code fence, yet its document holds a code
block, so the hook calls `writeCode` (the call log is not empty and `isSetup`
ends true) and the bytes written differ from those of the run with no hook
installed. -/
theorem render_without_fences_counterexample :
    hasCodeFence "    ab" = false ∧
    (main sampleChroma sampleMarkdown (goodWorld "    ab")).map (fun o => o.stdout)
      = some "<doc><span class=\"c0\">a</span><span class=\"c0\">b</span></doc>" ∧
    (mainWith sampleChroma sampleMarkdown none (goodWorld "    ab")).map (fun o => o.stdout)
      = some "<doc><pre>ab</pre></doc>" ∧
    (main sampleChroma sampleMarkdown (goodWorld "    ab")).map
        (fun o => (o.st.isSetup, o.st.calls))
      = some (true, [.newFormatter, .lexersGet "", .coalesce, .tokenise "ab", .format]) := by
  refine ⟨by decide, by decide, by decide, by decide⟩

/-- C6 (amended): for every document tree none of whose nodes is a code block,
rendering with `renderHookCodeInfo` installed gives the same result as
rendering with no hook installed, and that result returns the program state
untouched (`fmtr`, `isSetup`, error stream and library-call log as before);
on each node that is not a code block the hook changes nothing and writes
nothing; every returning `writeCode` call would have lengthened the call log;
and a run of `main` whose parsed input is such a tree equals the run with no
hook installed and ends in the initial program state. -/
theorem render_without_code_blocks (c : Chroma) {α R : Type} (m : Markdown α R)
    (flags : Nat) (s : State c) (doc : Node α) (h : doc.noCodeBlock = true) :
    render c m (some (renderHookCodeInfo c)) flags s doc = render c m none flags s doc ∧
    (∃ bytes, render c m none flags s doc = some (s, bytes)) ∧
    (∀ (s0 : State c) (n : Node α) (e : Bool), n.isCodeBlock = false →
      renderHookCodeInfo c s0 n e = some (s0, "", .GoToNext, false)) ∧
    (∀ (s0 : State c) t k r, writeCode c s0 t k = some r →
      s0.calls.length < r.1.calls.length) ∧
    (∀ w : World, w.stdinErr = none → m.parse (extensions m.extBit) w.stdinData = doc →
      main c m w = mainWith c m none w ∧
      ∃ o, main c m w = some o ∧ o.st = State.init c) := by
  have hren : ∀ (fl : Nat) (s0 : State c),
      render c m (some (renderHookCodeInfo c)) fl s0 doc = render c m none fl s0 doc := by
    intro fl s0
    unfold render
    simp only
    rw [walk_congr _ _ (fun x n e hn => renderNode_other c m x n e hn) doc _ h]
  refine ⟨hren flags s, render_none_total c m flags s doc,
    fun s0 n e hn => hook_other c s0 n e hn, ?_, ?_⟩
  · intro s0 t k r hw
    obtain ⟨s1, out, e⟩ := r
    exact (writeCode_frame c s0 s1 t k out e hw).2.1
  · intro w hw hp
    have hmain : main c m w = mainWith c m none w := by
      unfold main mainWith toHTML
      rw [hw, hp]
      simp only
      rw [hren]
    refine ⟨hmain, ?_⟩
    rw [hmain]
    unfold mainWith toHTML
    rw [hw, hp]
    simp only
    obtain ⟨bytes, hb⟩ := render_none_total c m (htmlFlags m.flagBit) (State.init c) doc
    rw [hb]
    simp only
    cases hwr : w.stdoutWrite bytes with
    | mk written err =>
      cases err with
      | none => exact ⟨_, rfl, rfl⟩
      | some e => exact ⟨_, rfl, rfl⟩

/-- Witness of amended C6: a one-paragraph document rendered by the sample
libraries. -/
theorem render_without_code_blocks_witness :
    (Node.container "doc" [.container "p" [.leaf "hello"]] : Node String).noCodeBlock = true ∧
    render sampleChroma sampleMarkdown (some (renderHookCodeInfo sampleChroma)) 0
        (State.init sampleChroma) (.container "doc" [.container "p" [.leaf "hello"]])
      = render sampleChroma sampleMarkdown none 0 (State.init sampleChroma)
        (.container "doc" [.container "p" [.leaf "hello"]]) :=
  ⟨by decide,
   (render_without_code_blocks sampleChroma sampleMarkdown 0 (State.init sampleChroma)
     (.container "doc" [.container "p" [.leaf "hello"]]) (by decide)).1⟩

/-- C7: `main` always finishes (no panic), and its exit status is zero
exactly when reading standard input succeeded and the write of the rendered
buffer to standard output succeeded, whatever the highlighting library does.
A read failure gives a non-zero status, the line "Error reading from stdin: "
++ e ++ newline on the error stream, and nothing offered or written to
standard output; a write failure gives a non-zero status and appends the line
"Error writing output: " ++ e ++ newline to the error stream.  With working
streams the status is zero, in particular on empty input. -/
theorem main_exit_status (c : Chroma) {α R : Type} (m : Markdown α R) (w : World) :
    ∃ o, main c m w = some o ∧
      (o.exitStatus = 0 ↔
        w.stdinErr = none ∧
          ∃ output, o.offered = some output ∧ (w.stdoutWrite output).2 = none) ∧
      (∀ e, w.stdinErr = some e →
        o.exitStatus ≠ 0 ∧ o.offered = none ∧ o.stdout = "" ∧
          o.stderr = "Error reading from stdin: " ++ e ++ "\n") ∧
      (w.stdinErr = none →
        ∃ output, o.offered = some output ∧ o.stdout = (w.stdoutWrite output).1 ∧
          (∀ e, (w.stdoutWrite output).2 = some e →
            o.exitStatus ≠ 0 ∧
              o.stderr = o.st.stderr ++ ("Error writing output: " ++ e ++ "\n")) ∧
          ((w.stdoutWrite output).2 = none → o.stderr = o.st.stderr)) ∧
      (w.stdinErr = none → (∀ b, (w.stdoutWrite b).2 = none) → o.exitStatus = 0) ∧
      (w.stdinData = "" → w.stdinErr = none → (∀ b, (w.stdoutWrite b).2 = none) →
        o.exitStatus = 0) := by
  cases hE : w.stdinErr with
  | some e =>
    refine ⟨{ exitStatus := -1, offered := none, stdout := "",
              stderr := "Error reading from stdin: " ++ e ++ "\n", st := State.init c },
      by simp [main, mainWith, hE], ?_, ?_, ?_, ?_, ?_⟩
    · simp
    · intro e' he
      simp only [Option.some.injEq] at he
      subst he
      exact ⟨by simp, rfl, rfl, rfl⟩
    · intro h; simp at h
    · intro h; simp at h
    · intro _ h; simp at h
  | none =>
    obtain ⟨s1, bytes, hr⟩ :=
      render_hook_total c m (htmlFlags m.flagBit) (State.init c)
        (m.parse (extensions m.extBit) w.stdinData) (State.wf_init c)
    cases hwr : w.stdoutWrite bytes with
    | mk written err =>
      cases err with
      | none =>
        refine ⟨{ exitStatus := 0, offered := some bytes, stdout := written,
                  stderr := s1.stderr, st := s1 },
          by simp [main, mainWith, hE, toHTML, hr, hwr], ?_, ?_, ?_, ?_, ?_⟩
        · simp [hwr]
        · intro e he; simp at he
        · intro _
          exact ⟨bytes, rfl, by simp [hwr], fun e he => by simp [hwr] at he, fun _ => rfl⟩
        · intro _ _; rfl
        · intro _ _ _; rfl
      | some e =>
        refine ⟨{ exitStatus := -1, offered := some bytes, stdout := written,
                  stderr := s1.stderr ++ "Error writing output: " ++ e ++ "\n", st := s1 },
          by simp [main, mainWith, hE, toHTML, hr, hwr], ?_, ?_, ?_, ?_, ?_⟩
        · simp [hwr]
        · intro e' he; simp at he
        · intro _
          refine ⟨bytes, rfl, by simp [hwr], fun e' he => ?_, fun h => by simp [hwr] at h⟩
          simp only [hwr, Option.some.injEq] at he
          subst he
          exact ⟨by simp, by simp [String.append_assoc]⟩
        · intro _ hb
          have := hb bytes
          simp [hwr] at this
        · intro _ _ hb
          have := hb bytes
          simp [hwr] at this

/-- Witness of C7: empty input, working streams, a highlighting library
whose constructor returns the nil pointer. -/
theorem main_exit_status_witness :
    (goodWorld "").stdinErr = none ∧ (∀ b, ((goodWorld "").stdoutWrite b).2 = none) ∧
    ∃ o, main nilChroma sampleMarkdown (goodWorld "") = some o ∧ o.exitStatus = 0 := by
  obtain ⟨o, h1, -, -, -, h2, -⟩ := main_exit_status nilChroma sampleMarkdown (goodWorld "")
  exact ⟨rfl, fun _ => rfl, o, h1, h2 rfl (fun _ => rfl)⟩

/-- C8: with the libraries as functions, the buffer `main` hands to standard
output is determined by the input bytes: two runs that read the same input
successfully offer the same buffer, however their standard outputs behave.
The bytes and error `writeCode` produces for a text and info string after any
sequence of earlier calls equal those it produces as the first call of a run;
in particular a first call (`isSetup` false, formatter constructed during the
call) and a later call (`isSetup` true, formatter reused) write the same
bytes. -/
theorem output_deterministic (c : Chroma) {α R : Type} (m : Markdown α R) :
    (∀ w1 w2 : World, w1.stdinData = w2.stdinData → w1.stdinErr = none →
      w2.stdinErr = none →
      ∃ o1 o2 output, main c m w1 = some o1 ∧ main c m w2 = some o2 ∧
        o1.offered = some output ∧ o2.offered = some output ∧
        o1.stdout = (w1.stdoutWrite output).1 ∧ o2.stdout = (w2.stdoutWrite output).1) ∧
    (∀ (prev : List (String × String)) (t k : String),
      ∃ s, writeCodes c (State.init c) prev = some s ∧
        (writeCode c s t k).map Prod.snd
          = (writeCode c (State.init c) t k).map Prod.snd) ∧
    (∀ (s0 s1 : State c) (t k : String),
      s0.isSetup = false → s1.isSetup = true → s1.fmtr = some c.newFormatter →
      (writeCode c s0 t k).map Prod.snd = (writeCode c s1 t k).map Prod.snd) := by
  refine ⟨?_, ?_, ?_⟩
  · intro w1 w2 hd h1 h2
    obtain ⟨s1, bytes, hr⟩ :=
      render_hook_total c m (htmlFlags m.flagBit) (State.init c)
        (m.parse (extensions m.extBit) w1.stdinData) (State.wf_init c)
    have hr2 := hr
    rw [hd] at hr2
    have key : ∀ w : World, w.stdinErr = none →
        render c m (some (renderHookCodeInfo c)) (htmlFlags m.flagBit) (State.init c)
          (m.parse (extensions m.extBit) w.stdinData) = some (s1, bytes) →
        ∃ o, main c m w = some o ∧ o.offered = some bytes ∧
          o.stdout = (w.stdoutWrite bytes).1 := by
      intro w hE hrw
      cases hwr : w.stdoutWrite bytes with
      | mk written err =>
        cases err with
        | none =>
          exact ⟨{ exitStatus := 0, offered := some bytes, stdout := written,
                   stderr := s1.stderr, st := s1 },
            by simp [main, mainWith, hE, toHTML, hrw, hwr], rfl, rfl⟩
        | some e =>
          exact ⟨{ exitStatus := -1, offered := some bytes, stdout := written,
                   stderr := s1.stderr ++ "Error writing output: " ++ e ++ "\n", st := s1 },
            by simp [main, mainWith, hE, toHTML, hrw, hwr], rfl, rfl⟩
    obtain ⟨o1, ho1, ha1, hb1⟩ := key w1 h1 hr
    obtain ⟨o2, ho2, ha2, hb2⟩ := key w2 h2 hr2
    exact ⟨o1, o2, bytes, ho1, ho2, ha1, ha2, hb1, hb2⟩
  · intro prev t k
    obtain ⟨s, hs, hr⟩ := writeCodes_reach c prev (State.init c) (State.reach_init c)
    exact ⟨s, hs, writeCode_out_reach c s t k hr⟩
  · intro s0 s1 t k h0 h1 hf
    rw [writeCode_setup c s1 c.newFormatter t k h1 hf, writeCode_fresh c s0 t k h0]
    rfl

/-- Witness of C8: the second of two identical code blocks is written with
the same bytes as the first. -/
theorem output_deterministic_witness :
    ∃ s, writeCodes sampleChroma (State.init sampleChroma) [("ab", "go")] = some s ∧
      (writeCode sampleChroma s "ab" "go").map Prod.snd
        = (writeCode sampleChroma (State.init sampleChroma) "ab" "go").map Prod.snd :=
  (output_deterministic sampleChroma sampleMarkdown).2.1 [("ab", "go")] "ab" "go"

theorem renderNode_parse (c : Chroma) {α R : Type} (m : Markdown α R)
    (g : Nat → String → Node α) (hook : Option (Hook c α)) :
    renderNode c { m with parse := g } hook = renderNode c m hook := by
  funext x n e
  cases hook <;> rfl

/-- C9 fails on the code: at the library's bit positions `htmlFlags` holds
`FootnoteReturnLinks`, `Smartypants`, `SmartypantsFractions` and
`SmartypantsLatexDashes` but not `SmartypantsDashes`, so not every flag the
claim lists is enabled. -/
theorem htmlFlags_missing_dashes :
    hasFlag HtmlFlag.libBit (htmlFlags HtmlFlag.libBit) .FootnoteReturnLinks = true ∧
    hasFlag HtmlFlag.libBit (htmlFlags HtmlFlag.libBit) .Smartypants = true ∧
    hasFlag HtmlFlag.libBit (htmlFlags HtmlFlag.libBit) .SmartypantsFractions = true ∧
    hasFlag HtmlFlag.libBit (htmlFlags HtmlFlag.libBit) .SmartypantsLatexDashes = true ∧
    hasFlag HtmlFlag.libBit (htmlFlags HtmlFlag.libBit) .SmartypantsDashes = false ∧
    ¬ (∀ f, f ∈ specHtmlFlags →
        hasFlag HtmlFlag.libBit (htmlFlags HtmlFlag.libBit) f = true) := by
  refine ⟨by decide, by decide, by decide, by decide, by decide, ?_⟩
  intro h
  have h1 := h .SmartypantsDashes (by decide)
  revert h1
  decide

/-- C10: whatever distinct bit positions the library gives its extension
constants, an extension is enabled in `extensions` exactly when it is one of
the ten listed ones (Tables, FencedCode, Strikethrough, SpaceHeadings,
HeadingIDs, BackslashLineBreak, DefinitionLists, OrderedListStart,
SuperSubscript, MathJax), every bit set in `extensions` is the bit of one of
these ten, and `main` creates its parser with `extensions`, a constant, for
every input. -/
theorem extensions_exact (bit : ParserExt → Nat) (hbit : Function.Injective bit) :
    listedExtensions.length = 10 ∧ listedExtensions.Nodup ∧
    (∀ e, hasFlag bit (extensions bit) e = decide (e ∈ listedExtensions)) ∧
    (∀ i, (extensions bit).testBit i = true → ∃ e, e ∈ listedExtensions ∧ bit e = i) ∧
    (∀ (c : Chroma) (α R : Type) (m : Markdown α R) (w : World),
      main c m w
        = main c { m with parse := fun _ => m.parse (extensions m.extBit) } w) := by
  refine ⟨rfl, by decide, hasFlag_extensions bit hbit, ?_, ?_⟩
  · intro i hi
    rw [testBit_extensions] at hi
    simpa using hi
  · intro c α R m w
    cases hE : w.stdinErr with
    | some e => simp [main, mainWith, hE]
    | none =>
      simp only [main, mainWith, hE, toHTML, render]
      rw [renderNode_parse c m (fun _ => m.parse (extensions m.extBit))]

/-- Witness of C10 at the library's bit positions. -/
theorem extensions_exact_witness :
    Function.Injective ParserExt.libBit ∧
    (∀ e, hasFlag ParserExt.libBit (extensions ParserExt.libBit) e
      = decide (e ∈ listedExtensions)) :=
  ⟨parserExt_libBit_injective,
   (extensions_exact ParserExt.libBit parserExt_libBit_injective).2.2.1⟩

end Njb
